import Mathlib

/-!
Verification of the DocRefine plan/step execution engine.

The definitions below are a shallow embedding of the controller logic in
src/App.tsx (handleAnalyze, handleNewIteration, handleAddStep,
handleDeleteStep, handleStepExecution, handleAutoRun) and of the
response handling of the service layer (analyzeAndPlan, executeStep in
the services file), over the data model of src/types.ts.

Modelling conventions:
- React state committed between operations is an AppState record; each
  handler is a function from AppState to AppState.  At every rest state
  isProcessing is false (every handler resets it in a finally block), so
  the isProcessing guards of the handlers are vacuous in this
  rest-state-to-rest-state semantics and are not carried in the state.
- activeStepId is carried in the state because handleAutoRun's catch
  block reads it.  Crucially, the catch block reads the value captured
  by the handler's closure at invocation time (React state reads inside
  an async handler see the values of the render that created the
  handler), not the value set by setActiveStepId during the loop; the
  model therefore passes the at-invocation value to the failure branch.
- The remote services (Gemini/OpenAI calls) are modelled as oracle
  outcomes supplied with each operation: an execution outcome is either
  ok (revisedText, diffSummary) or an error message (the JS Error
  message; the empty string models an undefined message, which is falsy
  in the "err.message || fallback" expressions).
- The settings dialog (setIsSettingsOpen) is pure presentation and is
  not modelled; the "no api key" branches simply leave the state
  unchanged.
- completionsEver is a ghost counter incremented exactly when a step
  transitions to COMPLETED; it instruments the code without changing it.
-/

namespace DocRefine

/-- Step lifecycle states, from the StepStatus enum of src/types.ts. -/
inductive StepStatus where
  | pending
  | inProgress
  | completed
  | failed
deriving DecidableEq, Repr

/-- One review step, from the ReviewStep interface of src/types.ts. -/
structure ReviewStep where
  id : String
  name : String
  description : String
  reasoning : String
  status : StepStatus
  output : Option String := none
  diffSummary : Option String := none
deriving DecidableEq, Repr

/-- Gap analysis record, from the GapAnalysis interface of src/types.ts. -/
structure GapAnalysis where
  professionalStandards : String
  missingContent : String
deriving DecidableEq, Repr

/-- Document analysis record, from the DocumentAnalysis interface of src/types.ts. -/
structure DocumentAnalysis where
  category : String
  assignedPersona : Option String := none
  currentLevel : String
  targetLevel : String
  summary : String
  gapAnalysis : GapAnalysis
deriving DecidableEq, Repr

/-- Document state, from the DocumentState interface of src/types.ts. -/
structure DocumentState where
  originalText : String
  currentText : String
  version : Nat
deriving DecidableEq, Repr

/-- A plan: one analysis plus the ordered step list, from src/types.ts. -/
structure AgentPlan where
  analysis : DocumentAnalysis
  steps : List ReviewStep
deriving DecidableEq, Repr

/-- Committed React state of the App component between operations
(src/App.tsx useState hooks), plus the ghost counter completionsEver. -/
structure AppState where
  docState : DocumentState
  plan : Option AgentPlan
  activeStepId : Option String
  error : Option String
  hasApiKey : Bool
  completionsEver : Nat
deriving DecidableEq, Repr

/-- A step as produced by the plan generator before the controller
attaches a status: analyzeAndPlan gives every generated step status
PENDING, so a generation outcome carries only the descriptive fields. -/
structure GenStep where
  id : String
  name : String
  description : String
  reasoning : String
deriving DecidableEq, Repr

/-- Successful payload of analyzeAndPlan as consumed by the controller. -/
structure GenPlan where
  analysis : DocumentAnalysis
  steps : List GenStep
deriving DecidableEq, Repr

/-- The status PENDING attached by analyzeAndPlan to every generated step. -/
def GenStep.toReviewStep (g : GenStep) : ReviewStep :=
  { id := g.id, name := g.name, description := g.description,
    reasoning := g.reasoning, status := StepStatus.pending }

/-- JS expression "msg || fallback": the empty string (modelling a falsy
err.message) selects the fallback. -/
def messageOr (msg fallback : String) : String :=
  if msg.isEmpty then fallback else msg

/-- Replace the element at a position, leaving the list unchanged when the
index is out of range; mirrors the newSteps[i] = ... updates in App.tsx. -/
def updateAt (i : Nat) (f : ReviewStep → ReviewStep) : List ReviewStep → List ReviewStep
  | [] => []
  | s :: rest =>
    match i with
    | 0 => f s :: rest
    | n + 1 => s :: updateAt n f rest

/-- JS Array.prototype.findIndex, with -1 modelled as none;
mirrors plan.steps.findIndex in handleStepExecution. -/
def findIndex (p : ReviewStep → Bool) : List ReviewStep → Option Nat
  | [] => none
  | s :: rest => if p s then some 0 else (findIndex p rest).map (· + 1)

/-- Outcome of one executeStep call as seen by the controller: either the
revised text and diff summary, or the thrown error's message. -/
abbrev ExecOutcome := Except String (String × String)

/-- handleAnalyze of src/App.tsx.  InputSection, its only caller, is
rendered only when plan is null (the App render branches on plan), so the
operation carries that reachability guard.  On success the generated plan
is installed and DocumentState is seeded from the input text at version 1;
on failure only the error banner changes. -/
def analyzeOp (st : AppState) (text : String) (outcome : Except String GenPlan) : AppState :=
  if st.plan.isSome then st
  else if !st.hasApiKey then st
  else
    match outcome with
    | Except.ok gp =>
      { st with
        plan := some { analysis := gp.analysis, steps := gp.steps.map GenStep.toReviewStep },
        docState := { originalText := text, currentText := text, version := 1 },
        error := none }
    | Except.error msg =>
      { st with error := some (messageOr msg "文档分析失败，请检查 API Key 或重试。") }

/-- handleNewIteration of src/App.tsx: re-analysis of the current text.
Guarded by docState.currentText being nonempty; replaces the plan
wholesale on success and leaves DocumentState untouched in every case. -/
def reanalyzeOp (st : AppState) (outcome : Except String GenPlan) : AppState :=
  if st.docState.currentText.isEmpty then st
  else if !st.hasApiKey then st
  else
    match outcome with
    | Except.ok gp =>
      { st with
        plan := some { analysis := gp.analysis, steps := gp.steps.map GenStep.toReviewStep },
        error := none }
    | Except.error msg =>
      { st with error := some (messageOr msg "新一轮分析失败，请重试。") }

/-- handleAddStep of src/App.tsx: appends a PENDING step with the fixed
reasoning placeholder; newId stands for the Date.now().toString() value
supplied by the environment. -/
def addStepOp (st : AppState) (newId nm descr : String) : AppState :=
  match st.plan with
  | none => st
  | some p =>
    { st with
      plan := some { p with
        steps := p.steps ++
          [{ id := newId, name := nm, description := descr,
             reasoning := "用户手动添加的优化任务", status := StepStatus.pending }] } }

/-- handleDeleteStep of src/App.tsx: filters the step list by id.  The
source performs no status check and raises no error. -/
def deleteStepOp (st : AppState) (stepId : String) : AppState :=
  match st.plan with
  | none => st
  | some p =>
    { st with plan := some { p with steps := p.steps.filter (fun s => s.id != stepId) } }

/-- The step name used in the fallback error message of
handleStepExecution (plan.steps[stepIndex].name). -/
def stepNameAt (l : List ReviewStep) (i : Nat) : String :=
  ((l.get? i).map ReviewStep.name).getD ""

/-- handleStepExecution of src/App.tsx (runStep).  A missing id returns
silently; a found step is marked IN_PROGRESS (transient within the
operation), executed, and then marked COMPLETED (committing the revised
text and bumping version) or FAILED (leaving DocumentState untouched).
The source has no status precondition on the found step. -/
def runStepOp (st : AppState) (stepId : String) (outcome : ExecOutcome) : AppState :=
  match st.plan with
  | none => st
  | some p =>
    if !st.hasApiKey then st
    else
      match findIndex (fun s => s.id == stepId) p.steps with
      | none => st
      | some i =>
        match outcome with
        | Except.ok (rt, ds) =>
          { st with
            docState := { st.docState with
              currentText := rt, version := st.docState.version + 1 },
            plan := some { p with
              steps := updateAt i
                (fun s =>
                  { s with
                    status := StepStatus.completed,
                    output := some rt,
                    diffSummary := some ds }) p.steps },
            error := none,
            activeStepId := none,
            completionsEver := st.completionsEver + 1 }
        | Except.error msg =>
          { st with
            plan := some { p with
              steps := updateAt i (fun s => { s with status := StepStatus.failed }) p.steps },
            error := some (messageOr msg ("步骤执行失败: " ++ stepNameAt p.steps i)),
            activeStepId := none }

/-- Result of the auto-run chain loop of handleAutoRun: the local
currentSteps array and currentText at loop exit, the number of completed
executions, the error of the aborting exception if any, and a ghost log
of the executor calls made, as (step id, input text) pairs. -/
structure ChainResult where
  steps : List ReviewStep
  text : String
  completions : Nat
  error : Option String
  calls : List (String × String)
deriving Repr

/-- The for-loop of handleAutoRun over the snapshot currentSteps taken at
invocation.  A PENDING step is marked IN_PROGRESS, executed with the
threaded currentText, and on success marked COMPLETED while the text
advances; the first failure aborts the loop with the last synced steps
array, in which the failing step still carries IN_PROGRESS.  Non-PENDING
steps are skipped unchanged. -/
def runChain (exec : String → ReviewStep → ExecOutcome) :
    List ReviewStep → String → ChainResult
  | [], text => { steps := [], text := text, completions := 0, error := none, calls := [] }
  | s :: rest, text =>
    if s.status == StepStatus.pending then
      let running := { s with status := StepStatus.inProgress }
      match exec text running with
      | Except.ok (rt, ds) =>
        let r := runChain exec rest rt
        { steps :=
            { running with
              status := StepStatus.completed,
              output := some rt,
              diffSummary := some ds } :: r.steps,
          text := r.text, completions := r.completions + 1, error := r.error,
          calls := (s.id, text) :: r.calls }
      | Except.error msg =>
        { steps := running :: rest, text := text, completions := 0,
          error := some (messageOr msg "自动执行被中断或发生错误"),
          calls := [(s.id, text)] }
    else
      let r := runChain exec rest text
      { steps := s :: r.steps, text := r.text, completions := r.completions,
        error := r.error, calls := r.calls }

/-- The catch block of handleAutoRun: "if (activeStepId) mark it FAILED".
captured is the closure-captured activeStepId of the invoking render; a
JS truthiness test also rejects the empty string.  The lookup runs over
the React step list current at catch time, which is the last synced
runningSteps array. -/
def markFailedByCaptured (captured : Option String) (steps : List ReviewStep) :
    List ReviewStep :=
  match captured with
  | none => steps
  | some cid =>
    if cid.isEmpty then steps
    else
      match findIndex (fun s => s.id == cid) steps with
      | none => steps
      | some i => updateAt i (fun s => { s with status := StepStatus.failed }) steps

/-- handleAutoRun of src/App.tsx (runAll): snapshots plan.steps, runs the
chain, folds every per-success setDocState/setPlan into the final
committed state, and on an aborting failure applies the catch block with
the closure-captured activeStepId. -/
def runAllOp (st : AppState) (exec : String → ReviewStep → ExecOutcome) : AppState :=
  match st.plan with
  | none => st
  | some p =>
    if !st.hasApiKey then st
    else
      let r := runChain exec p.steps st.docState.currentText
      let stepsAfter :=
        match r.error with
        | none => r.steps
        | some _ => markFailedByCaptured st.activeStepId r.steps
      { st with
        plan := some { p with steps := stepsAfter },
        docState := { st.docState with
          currentText := r.text, version := st.docState.version + r.completions },
        error := r.error,
        activeStepId := none,
        completionsEver := st.completionsEver + r.completions }

/-- One controller operation together with the environment data
(generated plans, executor outcomes, fresh ids) consumed by it. -/
inductive Op where
  | analyze (text : String) (outcome : Except String GenPlan)
  | reanalyze (outcome : Except String GenPlan)
  | addStep (newId nm descr : String)
  | deleteStep (stepId : String)
  | runStep (stepId : String) (outcome : ExecOutcome)
  | runAll (exec : String → ReviewStep → ExecOutcome)
  | saveConfig (hasKey : Bool)

/-- Dispatch of one operation; saveConfig models handleSaveConfig, which
only changes the configuration. -/
def applyOp (st : AppState) : Op → AppState
  | Op.analyze text outcome => analyzeOp st text outcome
  | Op.reanalyze outcome => reanalyzeOp st outcome
  | Op.addStep newId nm descr => addStepOp st newId nm descr
  | Op.deleteStep stepId => deleteStepOp st stepId
  | Op.runStep stepId outcome => runStepOp st stepId outcome
  | Op.runAll exec => runAllOp st exec
  | Op.saveConfig hasKey => { st with hasApiKey := hasKey }

/-- A whole session: operations applied in sequence. -/
def applyOps (st : AppState) (ops : List Op) : AppState :=
  ops.foldl applyOp st

/-- The initial state of the App component: empty document, version 0, no
plan; the configuration may or may not carry an api key. -/
def initState (hasKey : Bool) : AppState :=
  { docState := { originalText := "", currentText := "", version := 0 },
    plan := none, activeStepId := none, error := none,
    hasApiKey := hasKey, completionsEver := 0 }

/-- Number of steps currently IN_PROGRESS across the plan. -/
def inProgressCount (st : AppState) : Nat :=
  match st.plan with
  | none => 0
  | some p => (p.steps.filter (fun s => s.status == StepStatus.inProgress)).length

/-- Version bookkeeping invariant: with no plan the version is 0, no
completion has ever happened and the current text is empty; with a plan
the version is exactly 1 plus the number of executions that ever
transitioned a step to COMPLETED. -/
def VersionInv (st : AppState) : Prop :=
  match st.plan with
  | none =>
    st.docState.version = 0 ∧ st.completionsEver = 0 ∧ st.docState.currentText = ""
  | some _ => st.docState.version = 1 + st.completionsEver

theorem versionInv_applyOp {st : AppState} (h : VersionInv st) (op : Op) :
    VersionInv (applyOp st op) := by
  cases op with
  | analyze text outcome =>
    cases hp : st.plan with
    | some p => simp [applyOp, analyzeOp, hp, VersionInv]; simpa [VersionInv, hp] using h
    | none =>
      simp only [VersionInv, hp] at h
      by_cases hk : st.hasApiKey
      · cases outcome with
        | ok gp => simp [applyOp, analyzeOp, hp, hk, VersionInv, h.2.1]
        | error msg =>
          simp [applyOp, analyzeOp, hp, hk, VersionInv, h.1, h.2.1, h.2.2]
      · simp [applyOp, analyzeOp, hp, hk, VersionInv, h.1, h.2.1, h.2.2]
  | reanalyze outcome =>
    by_cases he : st.docState.currentText.isEmpty
    · simpa [applyOp, reanalyzeOp, he] using h
    · have hp : ∃ p, st.plan = some p := by
        cases hp : st.plan with
        | none =>
          simp only [VersionInv, hp] at h
          rw [h.2.2] at he
          exact absurd he (by decide)
        | some p => exact ⟨p, rfl⟩
      obtain ⟨p, hp⟩ := hp
      simp only [VersionInv, hp] at h
      by_cases hk : st.hasApiKey
      · cases outcome with
        | ok gp => simp [applyOp, reanalyzeOp, he, hk, VersionInv, h]
        | error msg => simp [applyOp, reanalyzeOp, he, hk, VersionInv, hp, h]
      · simp [applyOp, reanalyzeOp, he, hk, VersionInv, hp, h]
  | addStep newId nm descr =>
    cases hp : st.plan with
    | none => simpa [applyOp, addStepOp, hp] using h
    | some p =>
      simp only [VersionInv, hp] at h
      simp [applyOp, addStepOp, hp, VersionInv, h]
  | deleteStep stepId =>
    cases hp : st.plan with
    | none => simpa [applyOp, deleteStepOp, hp] using h
    | some p =>
      simp only [VersionInv, hp] at h
      simp [applyOp, deleteStepOp, hp, VersionInv, h]
  | runStep stepId outcome =>
    cases hp : st.plan with
    | none => simpa [applyOp, runStepOp, hp] using h
    | some p =>
      simp only [VersionInv, hp] at h
      by_cases hk : st.hasApiKey
      · cases hi : findIndex (fun s => s.id == stepId) p.steps with
        | none => simp [applyOp, runStepOp, hp, hk, hi, VersionInv, h]
        | some i =>
          cases outcome with
          | ok pr =>
            simp [applyOp, runStepOp, hp, hk, hi, VersionInv, h]
            omega
          | error msg => simp [applyOp, runStepOp, hp, hk, hi, VersionInv, h]
      · simp [applyOp, runStepOp, hp, hk, VersionInv, h]
  | runAll exec =>
    cases hp : st.plan with
    | none => simpa [applyOp, runAllOp, hp] using h
    | some p =>
      simp only [VersionInv, hp] at h
      by_cases hk : st.hasApiKey
      · simp [applyOp, runAllOp, hp, hk, VersionInv, h]
        omega
      · simp [applyOp, runAllOp, hp, hk, VersionInv, h]
  | saveConfig hasKey =>
    cases hp : st.plan with
    | none => simpa [applyOp, VersionInv, hp] using h
    | some p =>
      simp only [VersionInv, hp] at h
      simp [applyOp, VersionInv, hp, h]

theorem versionInv_init (hasKey : Bool) : VersionInv (initState hasKey) :=
  ⟨rfl, rfl, rfl⟩

theorem versionInv_applyOps {st : AppState} (h : VersionInv st) (ops : List Op) :
    VersionInv (applyOps st ops) := by
  induction ops generalizing st with
  | nil => simpa [applyOps] using h
  | cons op rest ih =>
    have h1 := versionInv_applyOp h op
    simpa [applyOps, List.foldl_cons] using ih h1

theorem version_mono_applyOp {st : AppState} (h : VersionInv st) (op : Op) :
    st.docState.version ≤ (applyOp st op).docState.version := by
  cases op with
  | analyze text outcome =>
    cases hp : st.plan with
    | some p => simp [applyOp, analyzeOp, hp]
    | none =>
      simp only [VersionInv, hp] at h
      by_cases hk : st.hasApiKey
      · cases outcome with
        | ok gp => simp [applyOp, analyzeOp, hp, hk, h.1]
        | error msg => simp [applyOp, analyzeOp, hp, hk]
      · simp [applyOp, analyzeOp, hp, hk]
  | reanalyze outcome =>
    by_cases he : st.docState.currentText.isEmpty
    · simp [applyOp, reanalyzeOp, he]
    · by_cases hk : st.hasApiKey
      · cases outcome with
        | ok gp => simp [applyOp, reanalyzeOp, he, hk]
        | error msg => simp [applyOp, reanalyzeOp, he, hk]
      · simp [applyOp, reanalyzeOp, he, hk]
  | addStep newId nm descr =>
    cases hp : st.plan with
    | none => simp [applyOp, addStepOp, hp]
    | some p => simp [applyOp, addStepOp, hp]
  | deleteStep stepId =>
    cases hp : st.plan with
    | none => simp [applyOp, deleteStepOp, hp]
    | some p => simp [applyOp, deleteStepOp, hp]
  | runStep stepId outcome =>
    cases hp : st.plan with
    | none => simp [applyOp, runStepOp, hp]
    | some p =>
      by_cases hk : st.hasApiKey
      · cases hi : findIndex (fun s => s.id == stepId) p.steps with
        | none => simp [applyOp, runStepOp, hp, hk, hi]
        | some i =>
          cases outcome with
          | ok pr => simp [applyOp, runStepOp, hp, hk, hi]
          | error msg => simp [applyOp, runStepOp, hp, hk, hi]
      · simp [applyOp, runStepOp, hp, hk]
  | runAll exec =>
    cases hp : st.plan with
    | none => simp [applyOp, runAllOp, hp]
    | some p =>
      by_cases hk : st.hasApiKey
      · simp [applyOp, runAllOp, hp, hk]
      · simp [applyOp, runAllOp, hp, hk]
  | saveConfig hasKey => simp [applyOp]

/-- C2: in every reachable state, DocumentState.version equals 1 plus the
number of executions that ever moved a step to COMPLETED (0 with no plan,
1 once a plan is first created from text, +1 per successful completion);
the version never decreases across any operation, and re-analysis leaves
it unchanged. -/
theorem c2_version_tracks_completions :
    (∀ (hasKey : Bool) (ops : List Op), VersionInv (applyOps (initState hasKey) ops)) ∧
    (∀ (hasKey : Bool) (ops : List Op) (op : Op),
       (applyOps (initState hasKey) ops).docState.version ≤
         (applyOp (applyOps (initState hasKey) ops) op).docState.version) ∧
    (∀ (st : AppState) (outcome : Except String GenPlan),
       (applyOp st (Op.reanalyze outcome)).docState.version = st.docState.version) := by
  refine ⟨fun hasKey ops => versionInv_applyOps (versionInv_init hasKey) ops,
          fun hasKey ops op =>
            version_mono_applyOp (versionInv_applyOps (versionInv_init hasKey) ops) op,
          fun st outcome => ?_⟩
  by_cases he : st.docState.currentText.isEmpty
  · simp [applyOp, reanalyzeOp, he]
  · by_cases hk : st.hasApiKey
    · cases outcome with
      | ok gp => simp [applyOp, reanalyzeOp, he, hk]
      | error msg => simp [applyOp, reanalyzeOp, he, hk]
    · simp [applyOp, reanalyzeOp, he, hk]

/-- Fixture analysis record used by the concrete traces below. -/
def anEx : DocumentAnalysis :=
  { category := "c", currentLevel := "l", targetLevel := "t", summary := "s",
    gapAnalysis := { professionalStandards := "p", missingContent := "m" } }

/-- Fixture generated step A. -/
def gsA : GenStep := { id := "A", name := "na", description := "da", reasoning := "ra" }

/-- Fixture generated step B. -/
def gsB : GenStep := { id := "B", name := "nb", description := "db", reasoning := "rb" }

/-- An executor that fails every call with message boom. -/
def failExec : String → ReviewStep → ExecOutcome := fun _ _ => Except.error "boom"

/-- A reachable session: analyze a document into a two-step plan, then
invoke auto-run twice with an executor that always fails. -/
def c1Trace : List Op :=
  [Op.analyze "doc" (Except.ok { analysis := anEx, steps := [gsA, gsB] }),
   Op.runAll failExec,
   Op.runAll failExec]

/-- C1 is violated by the code: after a reachable operation sequence
(analyze, then two failing auto-runs) both steps of the plan are
IN_PROGRESS at once.  The catch block of handleAutoRun tests the
closure-captured activeStepId, which is null at invocation, so the step
that failed is never marked FAILED and stays IN_PROGRESS; a second
auto-run skips it, fails on the next step and strands that one too. -/
theorem c1_two_steps_in_progress :
    inProgressCount (applyOps (initState true) c1Trace) = 2 ∧
    (applyOps (initState true) c1Trace).plan.map (fun p => p.steps.map ReviewStep.status) =
      some [StepStatus.inProgress, StepStatus.inProgress] := by
  exact ⟨by decide, by decide⟩

/-- A reachable state holding a freshly analyzed two-step plan. -/
def c3State : AppState :=
  applyOps (initState true)
    [Op.analyze "doc" (Except.ok { analysis := anEx, steps := [gsA, gsB] })]

/-- C3 is violated by the code on the failing step's status: when the
executor fails on step A of a fresh two-step plan, the chain does stop
immediately (only one executor call is made), the subsequent PENDING step
is untouched and the failure is surfaced in the error banner, but A is
left IN_PROGRESS instead of FAILED: the catch block's activeStepId is the
stale closure capture (null at invocation), so its FAILED marking never
executes and DocumentState stays at its pre-call value. -/
theorem c3_failing_step_left_in_progress :
    (runAllOp c3State failExec).plan.map (fun p => p.steps.map ReviewStep.status) =
      some [StepStatus.inProgress, StepStatus.pending] ∧
    (runAllOp c3State failExec).error = some "boom" ∧
    (runAllOp c3State failExec).docState = c3State.docState ∧
    (runChain failExec ((c3State.plan.map AgentPlan.steps).getD []) "doc").calls =
      [("A", "doc")] := by
  exact ⟨by decide, by decide, by decide, by decide⟩

theorem updateAt_getElem?_eq (f : ReviewStep → ReviewStep) :
    ∀ (l : List ReviewStep) (i : Nat), (updateAt i f l)[i]? = (l[i]?).map f := by
  intro l
  induction l with
  | nil => intro i; cases i <;> simp [updateAt]
  | cons s rest ih =>
    intro i
    cases i with
    | zero => simp [updateAt]
    | succ n => simpa [updateAt] using ih n

theorem updateAt_getElem?_ne (f : ReviewStep → ReviewStep) :
    ∀ (l : List ReviewStep) (i j : Nat), j ≠ i → (updateAt i f l)[j]? = l[j]? := by
  intro l
  induction l with
  | nil => intro i j _; cases i <;> simp [updateAt]
  | cons s rest ih =>
    intro i j hne
    cases i with
    | zero =>
      cases j with
      | zero => exact absurd rfl hne
      | succ m => simp [updateAt]
    | succ n =>
      cases j with
      | zero => simp [updateAt]
      | succ m => simpa [updateAt] using ih n m (fun hc => hne (by rw [hc]))

/-- C8: when a single-step execution via runStep ends in failure, the
target step's status becomes FAILED (its other fields untouched), every
other step is untouched, and DocumentState (currentText and version) is
exactly its pre-call value: the failed attempt commits nothing. -/
theorem c8_failed_execution_rolls_back :
    ∀ (st : AppState) (p : AgentPlan) (i : Nat) (stepId msg : String),
      st.hasApiKey = true →
      st.plan = some p →
      findIndex (fun s => s.id == stepId) p.steps = some i →
      (runStepOp st stepId (Except.error msg)).docState = st.docState ∧
      ∃ q : AgentPlan,
        (runStepOp st stepId (Except.error msg)).plan = some q ∧
        q.analysis = p.analysis ∧
        q.steps[i]? = (p.steps[i]?).map (fun s => { s with status := StepStatus.failed }) ∧
        ∀ j : Nat, j ≠ i → q.steps[j]? = p.steps[j]? := by
  intro st p i stepId msg hk hp hi
  refine ⟨by simp [runStepOp, hp, hk, hi], ?_⟩
  refine ⟨{ p with
            steps := updateAt i (fun s => { s with status := StepStatus.failed }) p.steps },
          by simp [runStepOp, hp, hk, hi], rfl, ?_, ?_⟩
  · exact updateAt_getElem?_eq _ p.steps i
  · exact fun j hj => updateAt_getElem?_ne _ p.steps i j hj

/-- A completed fixture step used in the concrete counterexamples. -/
def rsDone : ReviewStep :=
  { id := "X", name := "nx", description := "dx", reasoning := "rx",
    status := StepStatus.completed, output := some "v1", diffSummary := some "d1" }

/-- A pending fixture step. -/
def rsPend : ReviewStep :=
  { id := "Z", name := "nz", description := "dz", reasoning := "rz",
    status := StepStatus.pending }

/-- Fixture plan holding one COMPLETED step. -/
def donePlan : AgentPlan := { analysis := anEx, steps := [rsDone] }

/-- Fixture plan holding one PENDING step. -/
def pendPlan : AgentPlan := { analysis := anEx, steps := [rsPend] }

/-- Fixture state whose plan holds one COMPLETED step. -/
def doneSt : AppState :=
  { docState := { originalText := "o", currentText := "v1", version := 1 },
    plan := some donePlan, activeStepId := none, error := none,
    hasApiKey := true, completionsEver := 0 }

/-- Fixture state whose plan holds one PENDING step. -/
def pendSt : AppState :=
  { docState := { originalText := "o", currentText := "v0", version := 1 },
    plan := some pendPlan, activeStepId := none, error := none,
    hasApiKey := true, completionsEver := 0 }

/-- An executor that succeeds on every call. -/
def okExec : String → ReviewStep → ExecOutcome := fun _ _ => Except.ok ("v2", "d2")

/-- C4 counterexample: runStep with an id absent from the plan does not
fail with NotFound: it returns silently with the whole state (error
banner included) unchanged; and runStep on a step that exists but is
COMPLETED does not fail with InvalidState: it executes the step anyway,
bumping version and overwriting currentText. -/
theorem c4_counterexample :
    (runStepOp doneSt "missing" (Except.ok ("v2", "d2")) = doneSt ∧ doneSt.error = none) ∧
    ((runStepOp doneSt "X" (Except.ok ("v2", "d2"))).docState.version = 2 ∧
     (runStepOp doneSt "X" (Except.ok ("v2", "d2"))).docState.currentText = "v2" ∧
     rsDone.status = StepStatus.completed) :=
  ⟨⟨by decide, by decide⟩, by decide, by decide, by decide⟩

/-- C4 amended: runStep on an id matching no step is a silent no-op (the
state, the error banner included, is exactly unchanged, with no NotFound
failure); runStep on an id that is found executes the step regardless of
its current status — there is no InvalidState check — committing the
revision and bumping version on executor success. -/
theorem c4_run_step_lookup_behaviour :
    (∀ (st : AppState) (stepId : String) (outcome : ExecOutcome) (p : AgentPlan),
       st.plan = some p →
       findIndex (fun s => s.id == stepId) p.steps = none →
       runStepOp st stepId outcome = st) ∧
    (∀ (st : AppState) (p : AgentPlan) (stepId : String) (i : Nat) (rt ds : String),
       st.hasApiKey = true →
       st.plan = some p →
       findIndex (fun s => s.id == stepId) p.steps = some i →
       (runStepOp st stepId (Except.ok (rt, ds))).docState.version =
         st.docState.version + 1 ∧
       ((runStepOp st stepId (Except.ok (rt, ds))).plan.bind (fun q => q.steps[i]?)) =
         (p.steps[i]?).map (fun s =>
           { s with
             status := StepStatus.completed,
             output := some rt,
             diffSummary := some ds })) := by
  constructor
  · intro st stepId outcome p hp hnone
    by_cases hk : st.hasApiKey
    · simp [runStepOp, hp, hk, hnone]
    · simp [runStepOp, hp, hk]
  · intro st p stepId i rt ds hk hp hi
    refine ⟨by simp [runStepOp, hp, hk, hi], ?_⟩
    simp only [runStepOp, hp, hk, hi, Bool.not_true, Bool.false_eq_true, if_false,
      Option.bind_some, Option.some_bind]
    exact updateAt_getElem?_eq _ p.steps i

/-- C4 witness: both halves of the amended statement instantiated at the
fixture state holding one COMPLETED step. -/
theorem c4_run_step_lookup_behaviour_witness :
    (doneSt.plan = some donePlan ∧
     findIndex (fun s => s.id == "missing") donePlan.steps = none ∧
     runStepOp doneSt "missing" (Except.ok ("v2", "d2")) = doneSt) ∧
    (doneSt.hasApiKey = true ∧
     findIndex (fun s => s.id == "X") donePlan.steps = some 0 ∧
     (runStepOp doneSt "X" (Except.ok ("v2", "d2"))).docState.version =
       doneSt.docState.version + 1) :=
  ⟨⟨by decide, by decide,
    c4_run_step_lookup_behaviour.1 doneSt "missing" (Except.ok ("v2", "d2")) donePlan
      (by decide) (by decide)⟩,
   ⟨by decide, by decide,
    (c4_run_step_lookup_behaviour.2 doneSt donePlan "X" 0 "v2" "d2"
      (by decide) (by decide) (by decide)).1⟩⟩

/-- C8 witness: the rollback statement instantiated at the fixture state
holding one PENDING step. -/
theorem c8_failed_execution_rolls_back_witness :
    (pendSt.hasApiKey = true ∧ pendSt.plan = some pendPlan ∧
     findIndex (fun s => s.id == "Z") pendPlan.steps = some 0) ∧
    ((runStepOp pendSt "Z" (Except.error "e")).docState = pendSt.docState ∧
     ∃ q : AgentPlan,
       (runStepOp pendSt "Z" (Except.error "e")).plan = some q ∧
       q.analysis = pendPlan.analysis ∧
       q.steps[0]? =
         (pendPlan.steps[0]?).map (fun s => { s with status := StepStatus.failed }) ∧
       ∀ j : Nat, j ≠ 0 → q.steps[j]? = pendPlan.steps[j]?) :=
  ⟨⟨by decide, by decide, by decide⟩,
   c8_failed_execution_rolls_back pendSt pendPlan 0 "Z" "e"
     (by decide) (by decide) (by decide)⟩

/-- C5 counterexample: deleteStep on the COMPLETED step X is not rejected
with InvalidState: the step is removed from the plan (no error raised,
no rejection). -/
theorem c5_counterexample :
    (deleteStepOp doneSt "X").plan = some { analysis := anEx, steps := [] } ∧
    (deleteStepOp doneSt "X").error = none ∧
    rsDone.status = StepStatus.completed :=
  ⟨by decide, by decide, by decide⟩

/-- C5 amended: deleteStep removes every step whose id matches regardless
of that step's status (no InvalidState rejection exists); the analysis,
the remaining steps and DocumentState are untouched, and no error is
raised. -/
theorem c5_delete_ignores_status :
    ∀ (st : AppState) (p : AgentPlan) (stepId : String),
      st.plan = some p →
      (deleteStepOp st stepId).docState = st.docState ∧
      (deleteStepOp st stepId).error = st.error ∧
      ∃ q : AgentPlan, (deleteStepOp st stepId).plan = some q ∧
        q.analysis = p.analysis ∧
        (∀ s ∈ q.steps, s ∈ p.steps ∧ s.id ≠ stepId) ∧
        (∀ s ∈ p.steps, s.id ≠ stepId → s ∈ q.steps) := by
  intro st p stepId hp
  refine ⟨by simp [deleteStepOp, hp], by simp [deleteStepOp, hp],
          ⟨{ p with steps := p.steps.filter (fun s => s.id != stepId) },
           by simp [deleteStepOp, hp], rfl, ?_, ?_⟩⟩
  · intro s hs
    have := List.mem_filter.mp hs
    exact ⟨this.1, by simpa [bne_iff_ne] using this.2⟩
  · intro s hs hne
    exact List.mem_filter.mpr ⟨hs, by simpa [bne_iff_ne] using hne⟩

/-- C5 witness: the amended statement instantiated at the fixture state
holding one COMPLETED step. -/
theorem c5_delete_ignores_status_witness :
    doneSt.plan = some donePlan ∧
    ((deleteStepOp doneSt "X").docState = doneSt.docState ∧
     (deleteStepOp doneSt "X").error = doneSt.error ∧
     ∃ q : AgentPlan, (deleteStepOp doneSt "X").plan = some q ∧
       q.analysis = donePlan.analysis ∧
       (∀ s ∈ q.steps, s ∈ donePlan.steps ∧ s.id ≠ "X") ∧
       (∀ s ∈ donePlan.steps, s.id ≠ "X" → s ∈ q.steps)) :=
  ⟨by decide, c5_delete_ignores_status doneSt donePlan "X" (by decide)⟩

/-- C10: deleteStep with an id matching no step in the plan is a silent
no-op: no error is raised and the whole state — analysis, the full step
sequence with its order, DocumentState, error banner — is unchanged. -/
theorem c10_delete_missing_id_is_noop :
    ∀ (st : AppState) (p : AgentPlan) (stepId : String),
      st.plan = some p →
      (∀ s ∈ p.steps, s.id ≠ stepId) →
      deleteStepOp st stepId = st := by
  intro st p stepId hp hnone
  have hf : p.steps.filter (fun s => s.id != stepId) = p.steps :=
    List.filter_eq_self.mpr (fun s hs => by simpa [bne_iff_ne] using hnone s hs)
  obtain ⟨doc, pl, act, err, key, comp⟩ := st
  cases hp
  simp [deleteStepOp, hf]

/-- C10 witness: deleting an id absent from the fixture plan changes
nothing. -/
theorem c10_delete_missing_id_is_noop_witness :
    (∀ s ∈ donePlan.steps, s.id ≠ "nope") ∧ deleteStepOp doneSt "nope" = doneSt :=
  ⟨by decide, c10_delete_missing_id_is_noop doneSt donePlan "nope" (by decide) (by decide)⟩

/-- Reference call sequence, stated from the spec's description of
runAll: take the steps that are PENDING at chain start, in list order,
and execute each with the document text produced by the immediately
preceding successful execution (the invocation text for the first),
stopping at the first failure.  Each entry is (step id, input text).
This definition follows the spec's words and is compared against the
code-derived runChain below. -/
def specAutoRunCalls (exec : String → ReviewStep → ExecOutcome) :
    List ReviewStep → String → List (String × String)
  | [], _ => []
  | s :: rest, text =>
    match exec text { s with status := StepStatus.inProgress } with
    | Except.ok (rt, _) => (s.id, text) :: specAutoRunCalls exec rest rt
    | Except.error _ => [(s.id, text)]

theorem runChain_calls_eq_spec (exec : String → ReviewStep → ExecOutcome) :
    ∀ (steps : List ReviewStep) (text : String),
      (runChain exec steps text).calls =
        specAutoRunCalls exec
          (steps.filter (fun s => s.status == StepStatus.pending)) text := by
  intro steps
  induction steps with
  | nil => intro text; rfl
  | cons s rest ih =>
    intro text
    by_cases hs : (s.status == StepStatus.pending) = true
    · cases hx : exec text { s with status := StepStatus.inProgress } with
      | ok pr =>
        cases pr with
        | mk rt ds => simp [runChain, List.filter_cons, hs, hx, specAutoRunCalls, ih]
      | error msg => simp [runChain, List.filter_cons, hs, hx, specAutoRunCalls]
    · simp only [runChain, List.filter_cons, hs, Bool.false_eq_true, if_false]
      exact ih text

theorem specAutoRunCalls_fst_mem (exec : String → ReviewStep → ExecOutcome) :
    ∀ (l : List ReviewStep) (text : String) (c : String × String),
      c ∈ specAutoRunCalls exec l text → c.1 ∈ l.map ReviewStep.id := by
  intro l
  induction l with
  | nil => intro text c hc; simp [specAutoRunCalls] at hc
  | cons s rest ih =>
    intro text c hc
    simp only [specAutoRunCalls] at hc
    cases hx : exec text { s with status := StepStatus.inProgress } with
    | ok pr =>
      cases pr with
      | mk rt ds =>
        rw [hx] at hc
        rcases List.mem_cons.mp hc with hc | hc
        · simp [hc]
        · exact List.mem_cons_of_mem _ (ih rt c hc)
    | error msg =>
      rw [hx] at hc
      rcases List.mem_cons.mp hc with hc | hc
      · simp [hc]
      · simp at hc

/-- C9: the auto-run chain iterates the snapshot of the step list taken
at invocation, in list order: its executor-call sequence is exactly the
spec's reference sequence over the PENDING steps of that snapshot
(steps already COMPLETED or FAILED at chain start are skipped), each
call receiving the text produced by the immediately preceding successful
call; and every executed id comes from the snapshot, so steps appended
while the chain is in flight (whose ids are not in the snapshot) are
never executed by it. -/
theorem c9_auto_run_uses_fixed_snapshot :
    (∀ (exec : String → ReviewStep → ExecOutcome) (steps : List ReviewStep)
       (text : String),
       (runChain exec steps text).calls =
         specAutoRunCalls exec
           (steps.filter (fun s => s.status == StepStatus.pending)) text) ∧
    (∀ (exec : String → ReviewStep → ExecOutcome) (steps : List ReviewStep)
       (text : String) (c : String × String),
       c ∈ (runChain exec steps text).calls → c.1 ∈ steps.map ReviewStep.id) := by
  refine ⟨runChain_calls_eq_spec, fun exec steps text c hc => ?_⟩
  rw [runChain_calls_eq_spec exec steps text] at hc
  have h1 := specAutoRunCalls_fst_mem exec _ text c hc
  exact List.map_subset ReviewStep.id (fun x hx => List.mem_of_mem_filter hx) h1

/-- C9 witness: the membership half instantiated on a one-step pending
snapshot with a succeeding executor. -/
theorem c9_auto_run_uses_fixed_snapshot_witness :
    ("Z", "t0") ∈ (runChain okExec [rsPend] "t0").calls ∧
    "Z" ∈ [rsPend].map ReviewStep.id :=
  ⟨by decide,
   c9_auto_run_uses_fixed_snapshot.2 okExec [rsPend] "t0" ("Z", "t0") (by decide)⟩

/-- JSON values as produced by JSON.parse; numbers are modelled as
integers (no claim depends on fractional values). -/
inductive Json where
  | null
  | boolean (b : Bool)
  | number (n : Int)
  | string (s : String)
  | array (items : List Json)
  | object (entries : List (String × Json))
deriving Repr

/-- Property access j.k: some value for a present key of an object,
none (JS undefined) otherwise. -/
def Json.getField : Json → String → Option Json
  | Json.object fs, k => fs.lookup k
  | _, _ => none

/-- JS truthiness of a JSON value: null, false, 0 and the empty string
are falsy; arrays and objects (even empty) are truthy. -/
def Json.truthy : Json → Bool
  | Json.null => false
  | Json.boolean b => b
  | Json.number n => decide (n ≠ 0)
  | Json.string s => !s.isEmpty
  | Json.array _ => true
  | Json.object _ => true

/-- Enumerable own properties contributed by spreading a value into an
object literal: an object contributes its fields, a string contributes
its indexed characters, and other primitives contribute nothing. -/
def spreadFields : Json → List (String × Json)
  | Json.object fs => fs
  | Json.string s => s.toList.enum.map (fun p => (toString p.1, Json.string (String.singleton p.2)))
  | _ => []

/-- Setting key k in an object literal after a spread: an existing key is
overwritten in place, a new key is appended. -/
def setKV (fs : List (String × Json)) (k : String) (v : Json) : List (String × Json) :=
  if fs.any (fun p => p.1 == k) then
    fs.map (fun p => if p.1 == k then (k, v) else p)
  else fs ++ [(k, v)]

/-- One element of result.steps as rebuilt by analyzeAndPlan:
the spread of the raw element, its id replaced by the raw id when that
is truthy and by a freshly generated random id otherwise, and its
status set to the string PENDING. -/
def mkGeneratedStep (s : Json) (freshId : String) : Json :=
  let idVal : Json :=
    match s.getField "id" with
    | some v => if v.truthy then v else Json.string freshId
    | none => Json.string freshId
  Json.object (setKV (setKV (spreadFields s) "id" idVal) "status" (Json.string "PENDING"))

/-- The value analyzeAndPlan returns on success: result.analysis exactly
as parsed (undefined when the payload has no analysis key) and the
rebuilt steps. -/
structure GeneratedPlanJson where
  analysis : Option Json
  steps : List Json
deriving Repr

/-- Response handling of analyzeAndPlan in the services file, from the
point where the remote call produced responseText.  The code checks
emptiness, strips markdown fences, runs JSON.parse (modelled by the
parsed oracle: none is a parse exception; the fence stripping is a
string-to-string step absorbed into that oracle), and then maps over
result.steps inside the same try block: when steps is absent or not an
array the .map call throws and the catch turns it into the same parse
error.  No other shape validation is performed; in particular the
analysis object is passed through exactly as parsed.  fresh supplies the
Math.random based fallback ids. -/
def analyzeAndPlanResult (responseText : String) (parsed : Option Json)
    (fresh : Nat → String) : Except String GeneratedPlanJson :=
  if responseText.isEmpty then Except.error "无法生成分析计划 (Empty Response)。"
  else
    match parsed with
    | none => Except.error "模型返回的格式不是有效的 JSON，请重试。"
    | some result =>
      match result.getField "steps" with
      | some (Json.array ss) =>
        Except.ok
          { analysis := result.getField "analysis",
            steps := ss.enum.map (fun p => mkGeneratedStep p.2 (fresh p.1)) }
      | _ => Except.error "模型返回的格式不是有效的 JSON，请重试。"

/-- Response handling of executeStep in the services file, from the point
where the remote call produced responseText: an empty response throws,
an unparsable payload throws, and otherwise the parsed value is returned
as-is — the code performs no validation of the revisedText and
diffSummary fields. -/
def executeStepResult (stepName responseText : String) (parsed : Option Json) :
    Except String Json :=
  if responseText.isEmpty then Except.error ("执行步骤失败: " ++ stepName)
  else
    match parsed with
    | none => Except.error "模型返回的格式不是有效的 JSON。"
    | some j => Except.ok j

/-- Field k of j is present and is a non-empty string. -/
def nonEmptyStrField (j : Json) (k : String) : Bool :=
  match j.getField k with
  | some (Json.string s) => !s.isEmpty
  | _ => false

/-- C6 counterexample: the structurally valid payload with an empty
object body, which has neither revisedText nor diffSummary, is returned
by executeStep as a success rather than rejected as a failure. -/
theorem c6_counterexample :
    executeStepResult "step" "{}" (some (Json.object [])) = Except.ok (Json.object []) ∧
    nonEmptyStrField (Json.object []) "revisedText" = false ∧
    nonEmptyStrField (Json.object []) "diffSummary" = false :=
  ⟨rfl, rfl, rfl⟩

/-- C6 amended: executeStep fails exactly on an empty response text or a
payload JSON.parse rejects; any parsed payload is returned exactly
as-is, with no validation of revisedText or diffSummary, so incomplete
payloads are passed through rather than rejected. -/
theorem c6_execute_step_no_validation :
    ∀ (stepName responseText : String) (parsed : Option Json),
      ((executeStepResult stepName responseText parsed).isOk =
        (!responseText.isEmpty && parsed.isSome)) ∧
      (∀ j : Json, executeStepResult stepName responseText parsed = Except.ok j →
        parsed = some j) := by
  intro nm rt parsed
  constructor
  · by_cases he : rt.isEmpty <;> cases parsed <;>
      simp [executeStepResult, he, Except.isOk, Except.toBool]
  · intro j hj
    cases parsed with
    | none => by_cases he : rt.isEmpty <;> simp [executeStepResult, he] at hj
    | some x =>
      by_cases he : rt.isEmpty
      · simp [executeStepResult, he] at hj
      · simp only [executeStepResult, he, Bool.false_eq_true, if_false] at hj
        injection hj with h
        rw [h]

/-- C6 witness: the pass-through half instantiated on a nonempty response
parsed to null. -/
theorem c6_execute_step_no_validation_witness :
    executeStepResult "step" "x" (some Json.null) = Except.ok Json.null ∧
    some Json.null = some Json.null :=
  ⟨rfl, (c6_execute_step_no_validation "step" "x" (some Json.null)).2 Json.null rfl⟩

/-- The C7 payload: a parsable response whose analysis lacks gapAnalysis
entirely (hence gapAnalysis.missingContent) but which carries a steps
array. -/
def c7Payload : Json :=
  Json.object [("analysis", Json.object [("category", Json.string "c")]), ("steps", Json.array [])]

/-- C7 counterexample: a response missing the required field
gapAnalysis.missingContent does not make generation fail: it yields a
plan whose analysis is passed through with the field absent. -/
theorem c7_counterexample :
    analyzeAndPlanResult "x" (some c7Payload) (fun _ => "rid") =
      Except.ok
        { analysis := some (Json.object [("category", Json.string "c")]), steps := [] } ∧
    ((c7Payload.getField "analysis").bind (fun a => a.getField "gapAnalysis")) = none :=
  ⟨rfl, rfl⟩

/-- C7 amended: generation fails exactly when the response is empty,
unparsable, or lacks an array-valued steps property; the analysis shape
is never validated, so payloads with missing analysis fields produce a
plan carrying the partial analysis as-is; and on a generation failure
the controller installs no plan and leaves the prior plan and
DocumentState unchanged. -/
theorem c7_analyze_no_shape_validation :
    (∀ (responseText : String) (parsed : Option Json) (fresh : Nat → String),
       ((analyzeAndPlanResult responseText parsed fresh).isOk = true ↔
         (responseText.isEmpty = false ∧
          ∃ j ss, parsed = some j ∧ j.getField "steps" = some (Json.array ss)))) ∧
    (∀ (st : AppState) (text msg : String),
       (applyOp st (Op.analyze text (Except.error msg))).plan = st.plan ∧
       (applyOp st (Op.analyze text (Except.error msg))).docState = st.docState) := by
  constructor
  · intro rt parsed fresh
    by_cases he : rt.isEmpty
    · simp [analyzeAndPlanResult, he, Except.isOk, Except.toBool]
    · cases parsed with
      | none => simp [analyzeAndPlanResult, he, Except.isOk, Except.toBool]
      | some j =>
        cases hf : j.getField "steps" with
        | none =>
          simp [analyzeAndPlanResult, he, hf, Except.isOk, Except.toBool]
        | some v =>
          cases v <;>
            simp [analyzeAndPlanResult, he, hf, Except.isOk, Except.toBool]
  · intro st text msg
    cases hp : st.plan with
    | some p => constructor <;> simp [applyOp, analyzeOp, hp]
    | none =>
      by_cases hk : st.hasApiKey <;> constructor <;> simp [applyOp, analyzeOp, hp, hk]

end DocRefine
